import Mathlib

/-!
Verification of the divyy dividend-analysis engine.

The development shallowly embeds the core calculators and resilience
utilities of the repository:

* `src/src/models/StockData.ts` (`Fundamentals` and its derived ratios),
* `src/src/calculators/DividendCalculator.ts`,
* `src/src/calculators/TechnicalIndicatorCalculator.ts`,
* `src/packages/core/src/data/DividendAristocrats.ts`,
* `src/src/utils/RetryHandler.ts` (retry loop and circuit breaker),
* `src/src/services/DatabaseService.ts` (`createOptionsHash`),
* `src/src/services/DividendAnalysisService.ts` (`analyze` cache flow).

JavaScript numbers are modelled as exact rationals extended with the
IEEE-754 non-finite values (`JSNum`); monetary and price values that are
known to be finite are modelled directly as `ℚ`.  Timestamps are natural
numbers of milliseconds.
-/

/-- Model of a JavaScript number: a finite value (an exact rational), `NaN`,
`Infinity` or `-Infinity`.  Float rounding is abstracted away; the code under
verification only branches on finiteness, sign and order comparisons. -/
inductive JSNum where
  | num (q : ℚ)
  | nan
  | posInf
  | negInf
deriving DecidableEq

/-- JavaScript `isFinite`. -/
def JSNum.isFinite : JSNum → Bool
  | .num _ => true
  | _ => false

/-- JavaScript `x > c` for a finite right-hand side: comparisons with `NaN`
are false, `Infinity > c` is true, `-Infinity > c` is false. -/
def JSNum.jsGt (x : JSNum) (c : ℚ) : Bool :=
  match x with
  | .num q => decide (c < q)
  | .nan => false
  | .posInf => true
  | .negInf => false

/-- JavaScript truthiness of a number: `0` and `NaN` are falsy. -/
def JSNum.truthy : JSNum → Bool
  | .num q => decide (q ≠ 0)
  | .nan => false
  | .posInf => true
  | .negInf => true

/-- MathUtils.ts: `clamp(x, lo, hi) = Math.min(hi, Math.max(lo, x))`. -/
def clamp (x lo hi : ℚ) : ℚ := min hi (max lo x)

/-- JavaScript `Math.round`: round half towards positive infinity. -/
def jsRound (q : ℚ) : ℤ := ⌊q + 1/2⌋

/-- StockData.ts `Fundamentals`: the five stored fields, each a JavaScript
number that may be non-finite ("unknown"). -/
structure Fundamentals where
  operatingCashFlow : JSNum
  capitalExpenditure : JSNum
  cashDividendsPaid : JSNum
  netIncome : JSNum
  payoutRatio : JSNum
deriving DecidableEq

/-- StockData.ts getter `freeCashFlow`:
`isFinite(ocf) && isFinite(capex) ? ocf - capex : NaN`. -/
def Fundamentals.freeCashFlow (f : Fundamentals) : JSNum :=
  match f.operatingCashFlow, f.capitalExpenditure with
  | .num a, .num b => .num (a - b)
  | _, _ => .nan

/-- StockData.ts getter `fcfPayoutRatio`:
`isFinite(div) && isFinite(fcf) && fcf !== 0 ? div / fcf : NaN`. -/
def Fundamentals.fcfPayoutRatio (f : Fundamentals) : JSNum :=
  match f.cashDividendsPaid, Fundamentals.freeCashFlow f with
  | .num d, .num fcf => if fcf ≠ 0 then .num (d / fcf) else .nan
  | _, _ => .nan

/-- StockData.ts getter `fcfCoverage`:
`isFinite(div) && isFinite(fcf) && div > 0 ? fcf / div
   : (div === 0 ? Infinity : NaN)`. -/
def Fundamentals.fcfCoverage (f : Fundamentals) : JSNum :=
  match f.cashDividendsPaid, Fundamentals.freeCashFlow f with
  | .num d, .num fcf =>
      if 0 < d then .num (fcf / d) else if d = 0 then .posInf else .nan
  | .num d, _ => if d = 0 then .posInf else .nan
  | _, _ => .nan

/-- StockData.ts getter `epsPayoutRatio`: the stored payout ratio when
finite, else `div / |netIncome|` when those are finite with non-zero income,
else `NaN`. -/
def Fundamentals.epsPayoutRatio (f : Fundamentals) : JSNum :=
  match f.payoutRatio with
  | .num p => .num p
  | _ =>
    match f.cashDividendsPaid, f.netIncome with
    | .num d, .num n => if n ≠ 0 then .num (d / |n|) else .nan
    | _, _ => .nan

/-- DividendCalculator.ts `calculateDividendStreak`, inner loop.  The loop
variable runs downward from `sorted.length - 1`; at position `j ≥ 1` it
compares `current = sorted[j]` with `previous = sorted[j-1]`, counting the
step when `current ≥ previous * 0.98`, forgiving a decline below 5% when the
next (more recent) year recovers, and stopping otherwise.  JavaScript
evaluates `(previous - current) / previous`; division by zero there yields
`±Infinity`/`NaN`, for which `< 0.05` is false, matching the `previous ≠ 0`
conjunct here. -/
def streakFrom (s : List (ℤ × ℚ)) : ℕ → ℕ
  | 0 => 0
  | (j+1) =>
    let current := (s.getD (j+1) (0, 0)).2
    let previous := (s.getD j (0, 0)).2
    if previous * (98/100) ≤ current then
      streakFrom s j + 1
    else
      if (previous ≠ 0 ∧ (previous - current) / previous < 5/100) ∧
          j + 1 < s.length - 1 ∧
          previous * (98/100) ≤ (s.getD (j+2) (0, 0)).2 then
        streakFrom s j + 1
      else 0

/-- DividendCalculator.ts `calculateDividendStreak(annualSeries)`: sort the
`(year, total)` pairs ascending by year, then run the backward loop from the
most recent year. -/
def calculateDividendStreak (annualSeries : List (ℤ × ℚ)) : ℕ :=
  let sorted := annualSeries.mergeSort (fun a b => decide (a.1 ≤ b.1))
  streakFrom sorted (sorted.length - 1)

/-- DividendCalculator.ts `calculateSafeGrowth(cagr5, cagr3, fundamentals,
streak)`: base is `cagr5 ?? cagr3 ?? 0` clamped to `[-0.10, 0.15]`, then
capped at 0 when a finite EPS payout ratio exceeds 0.8, a finite FCF payout
ratio exceeds 1.0, or the streak is below 3. -/
def calculateSafeGrowth (cagr5 cagr3 : Option ℚ) (f : Fundamentals)
    (streak : ℕ) : ℚ :=
  let growthBase := cagr5.getD (cagr3.getD 0)
  let safeGrowth := clamp growthBase (-(1/10)) (15/100)
  let eps := Fundamentals.epsPayoutRatio f
  let fcf := Fundamentals.fcfPayoutRatio f
  if (eps.isFinite && eps.jsGt (8/10)) || (fcf.isFinite && fcf.jsGt 1) ||
      decide (streak < 3) then
    min safeGrowth 0
  else
    safeGrowth

/-- DividendCalculator.ts `calculateGordonGrowthModel(forwardDividend, price,
requiredReturn, safeGrowth)`: `null` when the price is falsy or the forward
dividend is not finite; otherwise the growth is clamped to `[-0.05, 0.06]`
and the fair value `forwardDividend / (requiredReturn - g)` is returned only
when `requiredReturn > g`. -/
def calculateGordonGrowthModel (forwardDividend : JSNum) (price : JSNum)
    (requiredReturn safeGrowth : ℚ) : Option ℚ :=
  if !price.truthy || !forwardDividend.isFinite then none
  else
    match forwardDividend with
    | .num d =>
      let conservativeGrowth := max (-(1/20)) (min (6/100) safeGrowth)
      if conservativeGrowth < requiredReturn then
        some (d / (requiredReturn - conservativeGrowth))
      else none
    | _ => none

/-- TechnicalIndicatorCalculator.ts `calculateEMA`, value sequence.  Index
`period - 1` (and, vacuously, the earlier indices) carries the seed — the
simple average of the first `period` prices; each later index applies the
smoothing recurrence.  Faithful to the imperative loop for `period ≥ 1`. -/
def emaSeq (data : List ℚ) (period : ℕ) : ℕ → ℚ
  | 0 => (data.take period).sum / period
  | (i+1) =>
    if i + 1 + 1 ≤ period then (data.take period).sum / period
    else
      (data.getD (i+1) 0 - emaSeq data period i) * (2 / (period + 1)) +
        emaSeq data period i

/-- TechnicalIndicatorCalculator.ts `calculateEMA(data, period)`: empty when
`data.length < period`; otherwise an array of the same length whose first
`period - 1` entries are `NaN` (modelled `none`) and whose later entries
follow `emaSeq`. -/
def calculateEMA (data : List ℚ) (period : ℕ) : List (Option ℚ) :=
  if data.length < period then []
  else
    (List.range data.length).map fun i =>
      if i + 1 < period then none else some (emaSeq data period i)

/-- DividendAristocrats.ts: category of an elite dividend stock. -/
inductive EliteCategory where
  | king
  | aristocrat
deriving DecidableEq

/-- DividendAristocrats.ts `DividendEliteStock` (the optional `notes` field
is never read and is omitted). -/
structure DividendEliteStock where
  ticker : String
  name : String
  yearsOfIncreases : ℕ
  category : EliteCategory
deriving DecidableEq

/-- DividendAristocrats.ts `DIVIDEND_KINGS` reference table. -/
def DIVIDEND_KINGS : List DividendEliteStock :=
  [ ⟨"KO", "Coca-Cola", 61, .king⟩,
    ⟨"JNJ", "Johnson & Johnson", 61, .king⟩,
    ⟨"PG", "Procter & Gamble", 67, .king⟩,
    ⟨"MMM", "3M Company", 65, .king⟩,
    ⟨"CL", "Colgate-Palmolive", 60, .king⟩,
    ⟨"KMB", "Kimberly-Clark", 51, .king⟩,
    ⟨"SYY", "Sysco Corporation", 53, .king⟩,
    ⟨"HRL", "Hormel Foods", 57, .king⟩,
    ⟨"WMT", "Walmart", 49, .king⟩,
    ⟨"PEP", "PepsiCo", 51, .king⟩,
    ⟨"MDT", "Medtronic", 46, .king⟩,
    ⟨"CVX", "Chevron", 36, .king⟩,
    ⟨"XOM", "Exxon Mobil", 40, .king⟩,
    ⟨"ED", "Consolidated Edison", 49, .king⟩,
    ⟨"SO", "Southern Company", 42, .king⟩ ]

/-- DividendAristocrats.ts `DIVIDEND_ARISTOCRATS` reference table. -/
def DIVIDEND_ARISTOCRATS : List DividendEliteStock :=
  [ ⟨"ABBV", "AbbVie", 51, .aristocrat⟩,
    ⟨"ADM", "Archer-Daniels-Midland", 48, .aristocrat⟩,
    ⟨"AFL", "Aflac", 40, .aristocrat⟩,
    ⟨"ALB", "Albemarle Corporation", 29, .aristocrat⟩,
    ⟨"APD", "Air Products and Chemicals", 41, .aristocrat⟩,
    ⟨"ATO", "Atmos Energy", 39, .aristocrat⟩,
    ⟨"BDX", "Becton Dickinson", 51, .aristocrat⟩,
    ⟨"BF.B", "Brown-Forman", 39, .aristocrat⟩,
    ⟨"CAT", "Caterpillar", 29, .aristocrat⟩,
    ⟨"CHD", "Church & Dwight", 27, .aristocrat⟩,
    ⟨"CTAS", "Cintas Corporation", 39, .aristocrat⟩,
    ⟨"ECL", "Ecolab", 31, .aristocrat⟩,
    ⟨"EMR", "Emerson Electric", 66, .aristocrat⟩,
    ⟨"ESS", "Essex Property Trust", 29, .aristocrat⟩,
    ⟨"EXPD", "Expeditors International", 28, .aristocrat⟩,
    ⟨"GPC", "Genuine Parts", 67, .aristocrat⟩,
    ⟨"ITW", "Illinois Tool Works", 60, .aristocrat⟩,
    ⟨"LOW", "Lowe\x27s Companies", 60, .aristocrat⟩,
    ⟨"MCD", "McDonald\x27s Corporation", 46, .aristocrat⟩,
    ⟨"MKC", "McCormick & Company", 37, .aristocrat⟩,
    ⟨"NDSN", "Nordson Corporation", 60, .aristocrat⟩,
    ⟨"NUE", "Nucor Corporation", 50, .aristocrat⟩,
    ⟨"O", "Realty Income", 28, .aristocrat⟩,
    ⟨"PNR", "Pentair plc", 47, .aristocrat⟩,
    ⟨"PPG", "PPG Industries", 51, .aristocrat⟩,
    ⟨"SHW", "Sherwin-Williams", 44, .aristocrat⟩,
    ⟨"SPGI", "S&P Global", 50, .aristocrat⟩,
    ⟨"SWK", "Stanley Black & Decker", 55, .aristocrat⟩,
    ⟨"TGT", "Target Corporation", 55, .aristocrat⟩,
    ⟨"TROW", "T. Rowe Price", 37, .aristocrat⟩,
    ⟨"WBA", "Walgreens Boots Alliance", 47, .aristocrat⟩,
    ⟨"WST", "West Pharmaceutical Services", 30, .aristocrat⟩ ]

namespace DividendEliteDetector

/-- DividendAristocrats.ts `ALL_ELITE = [...DIVIDEND_KINGS, ...DIVIDEND_ARISTOCRATS]`. -/
def ALL_ELITE : List DividendEliteStock := DIVIDEND_KINGS ++ DIVIDEND_ARISTOCRATS

/-- DividendAristocrats.ts `isKnownElite`: first table entry with the given
ticker, if any. -/
def isKnownElite (ticker : String) : Option DividendEliteStock :=
  ALL_ELITE.find? (fun stock => stock.ticker == ticker)

/-- DividendAristocrats.ts `getExpectedStreak`. -/
def getExpectedStreak (ticker : String) : Option ℕ :=
  (isKnownElite ticker).map (·.yearsOfIncreases)

/-- Confidence level reported by the streak validator. -/
inductive Confidence where
  | high
  | medium
  | low
deriving DecidableEq

/-- Return shape of `validateStreak`. -/
structure StreakValidation where
  isValid : Bool
  expectedStreak : Option ℕ
  confidence : Confidence
  warning : Option String
deriving DecidableEq

/-- DividendAristocrats.ts `validateStreak(ticker, calculatedStreak)`.  The
JavaScript guard `if (!expectedStreak)` treats an expected streak of `0` as
"not a known elite stock"; that case is modelled explicitly. -/
def validateStreak (ticker : String) (calculatedStreak : ℕ) : StreakValidation :=
  match getExpectedStreak ticker with
  | none => ⟨true, none, .high, none⟩
  | some expected =>
    if expected = 0 then ⟨true, none, .high, none⟩ else
    let rat : ℚ := (calculatedStreak : ℚ) / (expected : ℚ)
    if 8/10 ≤ rat then
      ⟨true, some expected, .high, none⟩
    else if 5/10 ≤ rat then
      ⟨true, some expected, .medium,
        some ("Calculated streak (" ++ toString calculatedStreak ++
          ") lower than expected (" ++ toString expected ++
          ") due to data quality issues")⟩
    else if 10 ≤ calculatedStreak then
      ⟨true, some expected, .low,
        some ("Significant data quality issues detected. Expected " ++
          toString expected ++ " years, calculated " ++
          toString calculatedStreak)⟩
    else
      ⟨false, some expected, .low,
        some ("Major data quality issues. Known elite with " ++
          toString expected ++ " years, but calculated only " ++
          toString calculatedStreak)⟩

/-- Adjustment level reported by `getAdjustedStreak`. -/
inductive AdjustmentKind where
  | noAdjustment
  | minor
  | major
deriving DecidableEq

/-- Return shape of `getAdjustedStreak`. -/
structure AdjustedStreak where
  adjustedStreak : ℕ
  adjustment : AdjustmentKind
  rationale : Option String
deriving DecidableEq

/-- DividendAristocrats.ts `getAdjustedStreak(ticker, calculatedStreak)`.
Dispatches on the confidence of `validateStreak`; in the low-confidence case
the conservative estimate `max(calculated, min(expected * 0.7, 25))` is
rounded.  The estimate is at least the calculated streak, hence
non-negative, so `Math.round` is modelled as `jsRound` followed by
`Int.toNat`. -/
def getAdjustedStreak (ticker : String) (calculatedStreak : ℕ) : AdjustedStreak :=
  let validation := validateStreak ticker calculatedStreak
  if validation.expectedStreak.getD 0 = 0 ∨ validation.confidence = .high then
    ⟨calculatedStreak, .noAdjustment, none⟩
  else if validation.confidence = .medium then
    ⟨calculatedStreak, .minor, validation.warning⟩
  else
    let expected := validation.expectedStreak.getD 0
    let conservativeEstimate : ℚ :=
      max (calculatedStreak : ℚ) (min ((expected : ℚ) * (7/10)) 25)
    ⟨(jsRound conservativeEstimate).toNat, .major,
      some "Adjusted for known elite status with data quality issues"⟩

end DividendEliteDetector

/-- RetryHandler.ts `RetryConfig`. -/
structure RetryConfig where
  maxAttempts : ℕ
  baseDelayMs : ℚ
  maxDelayMs : ℚ
  backoffMultiplier : ℚ
  retryableErrors : List String
  jitterFactor : ℚ

/-- RetryHandler.ts `RetryResult`. -/
structure RetryResult (E T : Type) where
  success : Bool
  result : Option T
  error : Option E
  attempts : ℕ
  totalDelayMs : ℚ
deriving DecidableEq

/-- RetryHandler.ts `calculateDelay(attempt, config)`: exponential backoff
with jitter, capped at `maxDelayMs`.  The call to `Math.random()` is passed
in as `rand`. -/
def calculateDelay (attempt : ℕ) (cfg : RetryConfig) (rand : ℚ) : ℚ :=
  let baseDelay := cfg.baseDelayMs * cfg.backoffMultiplier ^ (attempt - 1)
  let jitter := baseDelay * cfg.jitterFactor * rand
  min (baseDelay + jitter) cfg.maxDelayMs

/-- RetryHandler.ts `executeWithRetry`, loop body.  `outcomes n` is the
result of the n-th invocation of the operation (1-indexed), `rand n` the
random draw used for the delay after attempt `n`.  `remaining` counts the
attempts still allowed (`executeWithRetry` starts it at `maxAttempts`), so
`1 ≤ remaining` inside an iteration is `attempt < maxAttempts`. -/
def executeWithRetryGo (E T : Type) (isRetryable : E → List String → Bool)
    (cfg : RetryConfig) (outcomes : ℕ → Except E T) (rand : ℕ → ℚ) :
    ℕ → ℕ → ℚ → Option E → RetryResult E T
  | 0, _, totalDelay, lastError =>
    ⟨false, none, lastError, cfg.maxAttempts, totalDelay⟩
  | (remaining+1), attempt, totalDelay, _ =>
    match outcomes attempt with
    | .ok r => ⟨true, some r, none, attempt, totalDelay⟩
    | .error e =>
      if !isRetryable e cfg.retryableErrors then
        ⟨false, none, some e, attempt, totalDelay⟩
      else if 1 ≤ remaining then
        executeWithRetryGo E T isRetryable cfg outcomes rand remaining
          (attempt + 1) (totalDelay + calculateDelay attempt cfg (rand attempt))
          (some e)
      else
        executeWithRetryGo E T isRetryable cfg outcomes rand remaining
          (attempt + 1) totalDelay (some e)

/-- RetryHandler.ts `executeWithRetry(operation, config)`. -/
def executeWithRetry (E T : Type) (isRetryable : E → List String → Bool)
    (cfg : RetryConfig) (outcomes : ℕ → Except E T) (rand : ℕ → ℚ) :
    RetryResult E T :=
  executeWithRetryGo E T isRetryable cfg outcomes rand cfg.maxAttempts 1 0 none

/-- RetryHandler.ts `withRetry(operation, config)`: unwrap a successful
result, otherwise throw the recorded error (`.error none` models the generic
`new Error('Retry operation failed')` thrown when no error was recorded). -/
def withRetry (E T : Type) (isRetryable : E → List String → Bool)
    (cfg : RetryConfig) (outcomes : ℕ → Except E T) (rand : ℕ → ℚ) :
    Except (Option E) T :=
  let result := executeWithRetry E T isRetryable cfg outcomes rand
  match result.success, result.result with
  | true, some r => .ok r
  | _, _ => .error result.error

/-- RetryHandler.ts circuit breaker closure state (`failures`,
`lastFailureTime`, `isOpen`).  Times are milliseconds. -/
structure CircuitBreakerState where
  failures : ℕ
  lastFailureTime : ℕ
  isOpen : Bool
deriving DecidableEq

/-- Outcome of one guarded call: the operation's value, the operation's
error, or the fail-fast `DataSourceError(CIRCUIT_BREAKER)`. -/
inductive BreakerOutcome (E T : Type) where
  | ok (value : T)
  | opError (e : E)
  | circuitOpen
deriving DecidableEq

/-- RetryHandler.ts `createCircuitBreaker` call body: reset the breaker when
the recovery window has passed, fail fast while open, otherwise run the
operation (outcome passed in as `op`), resetting the failure count on
success and recording the failure otherwise. -/
def circuitBreakerCall (E T : Type) (failureThreshold recoveryTimeMs : ℕ)
    (st : CircuitBreakerState) (now : ℕ) (op : Except E T) :
    BreakerOutcome E T × CircuitBreakerState :=
  let st := if st.isOpen ∧ recoveryTimeMs < now - st.lastFailureTime then
      { st with isOpen := false, failures := 0 }
    else st
  if st.isOpen then
    (.circuitOpen, st)
  else
    match op with
    | .ok r => (.ok r, { st with failures := 0 })
    | .error e =>
      let failures := st.failures + 1
      (.opError e,
        { failures := failures, lastFailureTime := now,
          isOpen := decide (failureThreshold ≤ failures) })

/-- Iterate `n` consecutive failing calls through the circuit breaker, all
observed at time `now`. -/
def failCalls (E : Type) (failureThreshold recoveryTimeMs : ℕ) (e : E)
    (now : ℕ) : ℕ → CircuitBreakerState → CircuitBreakerState
  | 0, st => st
  | (n+1), st =>
    failCalls E failureThreshold recoveryTimeMs e now n
      (circuitBreakerCall E Unit failureThreshold recoveryTimeMs st now
        (.error e)).2

/-- DatabaseService.ts: a JSON-serializable option value.  The options
actually hashed by the orchestrator (`requiredReturn`, `years`, `periods`,
`provider`) are all primitive. -/
inductive JsVal where
  | num (q : ℚ)
  | str (s : String)
  | bool (b : Bool)
  | null
deriving DecidableEq

/-- JSON string escaping (backslash and quote; the option keys and values in
use contain no control characters). -/
def jsonEscape (s : String) : String :=
  String.join (s.toList.map fun c =>
    if c = '\\' then "\\\\"
    else if c = '"' then "\\\""
    else String.singleton c)

/-- JSON serialization of a primitive value. -/
def JsVal.serialize : JsVal → String
  | .num q => toString q
  | .str s => "\"" ++ jsonEscape s ++ "\""
  | .bool b => if b then "true" else "false"
  | .null => "null"

/-- DatabaseService.ts `JSON.stringify(options, Object.keys(options).sort())`:
with an array replacer, `JSON.stringify` emits exactly the listed keys in
the replacer's (sorted) order. -/
def stringifySorted (options : List (String × JsVal)) : String :=
  let keys := (options.map Prod.fst).mergeSort (fun a b => decide (a ≤ b))
  "\x7b" ++ String.intercalate ","
    (keys.map fun k =>
      "\"" ++ jsonEscape k ++ "\":" ++
        JsVal.serialize ((options.lookup k).getD .null)) ++ "\x7d"

/-- DatabaseService.ts `createOptionsHash(options)`: canonical serialization,
content digest (the `crypto` MD5 hex digest is external to the repository
and passed in as `digest`; it maps any string to a 32-character hex string),
truncated to the first 16 characters (`substring(0, 16)`). -/
def createOptionsHash (digest : String → String)
    (options : List (String × JsVal)) : String :=
  ⟨((digest (stringifySorted options)).data.take 16)⟩

/-- DividendAnalysisService.ts `analyze`, cache and streak-substitution
control flow.  `cacheRead` is the outcome of the `getRecentAnalysis` call
(line 51), `mkAnalysis streak` stands for steps 2-7 of the pipeline run with
the substituted streak (lines 66-166), and `cacheWrite` is the outcome of
`saveAnalysis` (line 171).  A cache-read failure is caught and degrades to a
miss; a cache-write failure is caught and ignored. -/
def analyze (A : Type) (saveToDb forceFresh : Bool)
    (cacheRead : Except String (Option A)) (ticker : String) (rawStreak : ℕ)
    (mkAnalysis : ℕ → A) (cacheWrite : A → Except String Unit) :
    Except String A :=
  let cached : Option A :=
    if saveToDb && !forceFresh then
      match cacheRead with
      | .ok r => r
      | .error _ => none
    else none
  match cached with
  | some record => .ok record
  | none =>
    let streak :=
      (DividendEliteDetector.getAdjustedStreak ticker rawStreak).adjustedStreak
    let analysis := mkAnalysis streak
    let saveOutcome : Option (Except String Unit) :=
      if saveToDb then some (cacheWrite analysis) else none
    let _ := saveOutcome
    .ok analysis

/-! ## Theorems -/

theorem freeCashFlow_finite_or_nan (f : Fundamentals) :
    (Fundamentals.freeCashFlow f).isFinite = true ∨
      Fundamentals.freeCashFlow f = .nan := by
  cases h₁ : f.operatingCashFlow <;> cases h₂ : f.capitalExpenditure <;>
    simp [Fundamentals.freeCashFlow, h₁, h₂, JSNum.isFinite]

theorem fcfPayout_finite_or_nan (f : Fundamentals) :
    ( Fundamentals.fcfPayoutRatio f).isFinite = true ∨
      Fundamentals.fcfPayoutRatio f = .nan := by
  cases h₁ : f.cashDividendsPaid <;> cases h₂ : Fundamentals.freeCashFlow f <;>
    simp only [ Fundamentals.fcfPayoutRatio, h₁, h₂] <;>
    (try split_ifs) <;> simp [JSNum.isFinite]

theorem epsPayout_finite_or_nan (f : Fundamentals) :
    ( Fundamentals.epsPayoutRatio f).isFinite = true ∨
      Fundamentals.epsPayoutRatio f = .nan := by
  cases h₁ : f.payoutRatio <;> cases h₂ : f.cashDividendsPaid <;>
    cases h₃ : f.netIncome <;>
    simp only [ Fundamentals.epsPayoutRatio, h₁, h₂, h₃] <;>
    (try split_ifs) <;> simp [JSNum.isFinite]

theorem fcfCoverage_cases (f : Fundamentals) :
    (Fundamentals.fcfCoverage f).isFinite = true ∨
      Fundamentals.fcfCoverage f = .nan ∨
      (Fundamentals.fcfCoverage f = .posInf ∧ f.cashDividendsPaid = .num 0) := by
  cases h₁ : f.cashDividendsPaid <;> cases h₂ : Fundamentals.freeCashFlow f <;>
    simp [Fundamentals.fcfCoverage, h₁, h₂, JSNum.isFinite] <;>
    split_ifs <;> simp_all [JSNum.isFinite]

/-- C9 (counterexample): with finite operating cash flow and capital
expenditure but `cashDividendsPaid = 0`, the derived `fcfCoverage` is
`Infinity` — neither a finite number nor the `NaN` sentinel, contradicting
the claim that every derived ratio field is finite or `NaN`. -/
theorem fundamentals_ratio_fields_cex :
    Fundamentals.fcfCoverage ⟨.num 5, .num 1, .num 0, .num 1, .nan⟩ = .posInf ∧
    ¬ ((Fundamentals.fcfCoverage ⟨.num 5, .num 1, .num 0, .num 1, .nan⟩).isFinite = true ∨
        Fundamentals.fcfCoverage ⟨.num 5, .num 1, .num 0, .num 1, .nan⟩ = .nan) := by
  decide

/-- C9 (amended): for every `Fundamentals` value, `freeCashFlow`,
`fcfPayoutRatio` and `epsPayoutRatio` are each either finite or the `NaN`
sentinel, and `fcfCoverage` is either finite, `NaN`, or — exactly when the
stored `cashDividendsPaid` is the finite number 0 — `Infinity`.  Missing
inputs are never coerced to 0. -/
theorem fundamentals_ratio_fields_spec (f : Fundamentals) :
    ((Fundamentals.freeCashFlow f).isFinite = true ∨
        Fundamentals.freeCashFlow f = .nan) ∧
    (( Fundamentals.fcfPayoutRatio f).isFinite = true ∨
        Fundamentals.fcfPayoutRatio f = .nan) ∧
    (( Fundamentals.epsPayoutRatio f).isFinite = true ∨
        Fundamentals.epsPayoutRatio f = .nan) ∧
    ((Fundamentals.fcfCoverage f).isFinite = true ∨
        Fundamentals.fcfCoverage f = .nan ∨
        (Fundamentals.fcfCoverage f = .posInf ∧ f.cashDividendsPaid = .num 0)) :=
  ⟨freeCashFlow_finite_or_nan f, fcfPayout_finite_or_nan f,
    epsPayout_finite_or_nan f, fcfCoverage_cases f⟩

theorem jsGt_finite_guard (x : JSNum) (c : ℚ)
    (h : x.isFinite = true ∨ x = .nan) :
    (x.isFinite && x.jsGt c) = x.jsGt c := by
  rcases h with h | h
  · cases x <;> simp_all [JSNum.isFinite]
  · subst h; simp [JSNum.isFinite, JSNum.jsGt]

/-- C3: `calculateSafeGrowth` equals the base `cagr5 ?? cagr3 ?? 0` clamped
to `[-0.10, 0.15]` and, exactly when `epsPayoutRatio > 0.8` or
`fcfPayoutRatio > 1.0` (JavaScript comparisons, false on the `NaN` sentinel)
or `streak < 3`, additionally capped at zero; in particular the result is
never positive when `streak < 3`. -/
theorem calculateSafeGrowth_spec (cagr5 cagr3 : Option ℚ) (f : Fundamentals)
    (streak : ℕ) :
    (( Fundamentals.epsPayoutRatio f).jsGt (8/10) = true ∨
        ( Fundamentals.fcfPayoutRatio f).jsGt 1 = true ∨ streak < 3 →
      calculateSafeGrowth cagr5 cagr3 f streak =
        min (clamp (cagr5.getD (cagr3.getD 0)) (-(1/10)) (15/100)) 0) ∧
    (¬ (( Fundamentals.epsPayoutRatio f).jsGt (8/10) = true ∨
          ( Fundamentals.fcfPayoutRatio f).jsGt 1 = true ∨ streak < 3) →
      calculateSafeGrowth cagr5 cagr3 f streak =
        clamp (cagr5.getD (cagr3.getD 0)) (-(1/10)) (15/100)) ∧
    (streak < 3 → calculateSafeGrowth cagr5 cagr3 f streak ≤ 0) := by
  have heps := jsGt_finite_guard ( Fundamentals.epsPayoutRatio f) (8/10)
    (epsPayout_finite_or_nan f)
  have hfcf := jsGt_finite_guard ( Fundamentals.fcfPayoutRatio f) 1
    (fcfPayout_finite_or_nan f)
  have hmain : ∀ hcond : Prop, True := fun _ => trivial
  refine ⟨?_, ?_, ?_⟩
  · intro h
    have hb : (( Fundamentals.epsPayoutRatio f).isFinite &&
          ( Fundamentals.epsPayoutRatio f).jsGt (8/10) ||
        (( Fundamentals.fcfPayoutRatio f).isFinite &&
          ( Fundamentals.fcfPayoutRatio f).jsGt 1) ||
        decide (streak < 3)) = true := by
      rw [heps, hfcf]
      simp only [Bool.or_eq_true, decide_eq_true_eq]
      tauto
    simp only [calculateSafeGrowth, hb, if_true]
  · intro h
    have hb : (( Fundamentals.epsPayoutRatio f).isFinite &&
          ( Fundamentals.epsPayoutRatio f).jsGt (8/10) ||
        (( Fundamentals.fcfPayoutRatio f).isFinite &&
          ( Fundamentals.fcfPayoutRatio f).jsGt 1) ||
        decide (streak < 3)) = false := by
      rw [heps, hfcf]
      simp only [Bool.or_eq_false_iff, decide_eq_false_iff_not]
      push_neg at h
      exact ⟨⟨Bool.eq_false_iff.mpr h.1, Bool.eq_false_iff.mpr h.2.1⟩, not_lt.mpr h.2.2⟩
    simp only [calculateSafeGrowth, hb, Bool.false_eq_true, if_false]
  · intro h
    have hb : (( Fundamentals.epsPayoutRatio f).isFinite &&
          ( Fundamentals.epsPayoutRatio f).jsGt (8/10) ||
        (( Fundamentals.fcfPayoutRatio f).isFinite &&
          ( Fundamentals.fcfPayoutRatio f).jsGt 1) ||
        decide (streak < 3)) = true := by
      simp only [Bool.or_eq_true, decide_eq_true_eq]
      tauto
    simp only [calculateSafeGrowth, hb, if_true]
    exact min_le_right _ 0

/-- C3 (witness): with no CAGR data, an all-unknown fundamentals record and
a streak of 2, the safe growth is capped at zero. -/
theorem calculateSafeGrowth_spec_witness :
    (2 < 3) ∧
    calculateSafeGrowth none none ⟨.nan, .nan, .nan, .nan, .nan⟩ 2 ≤ 0 :=
  ⟨by decide,
    (calculateSafeGrowth_spec none none ⟨.nan, .nan, .nan, .nan, .nan⟩ 2).2.2
      (by decide)⟩

/-- C4: the Gordon Growth model returns no value whenever the required
return does not exceed the clamped growth `g`, the price is falsy, or the
forward dividend is unknown; otherwise it returns
`forwardDividend / (requiredReturn - g)`, and whenever it does return a
value the denominator is strictly positive. -/
theorem gordonGrowth_spec (forwardDividend : JSNum) (price : JSNum)
    (requiredReturn safeGrowth g : ℚ)
    (hg : g = max (-(1/20)) (min (6/100) safeGrowth)) :
    (requiredReturn ≤ g ∨ price.truthy = false ∨
        forwardDividend.isFinite = false →
      calculateGordonGrowthModel forwardDividend price requiredReturn
        safeGrowth = none) ∧
    (∀ d : ℚ, forwardDividend = .num d → price.truthy = true →
      g < requiredReturn →
      calculateGordonGrowthModel forwardDividend price requiredReturn
        safeGrowth = some (d / (requiredReturn - g))) ∧
    (∀ x : ℚ, calculateGordonGrowthModel forwardDividend price requiredReturn
        safeGrowth = some x → 0 < requiredReturn - g) := by
  subst hg
  cases forwardDividend with
  | num d =>
    have hres : calculateGordonGrowthModel (.num d) price requiredReturn
        safeGrowth =
        if price.truthy = true then
          (if max (-(1/20)) (min (6/100) safeGrowth) < requiredReturn then
            some (d / (requiredReturn - max (-(1/20)) (min (6/100) safeGrowth)))
          else none)
        else none := by
      unfold calculateGordonGrowthModel
      by_cases htr : price.truthy = true <;> simp [htr, JSNum.isFinite]
    refine ⟨?_, ?_, ?_⟩
    · rintro (h | h | h)
      · rw [hres]
        split_ifs with h₁ h₂
        · exact absurd h₂ (not_lt.mpr h)
        · rfl
        · rfl
      · rw [hres, if_neg (by simp [h])]
      · simp [JSNum.isFinite] at h
    · intro d' hd' htr hlt
      injection hd' with hdd
      subst hdd
      rw [hres, if_pos htr, if_pos hlt]
    · intro x hx
      rw [hres] at hx
      by_cases h₁ : price.truthy = true
      · rw [if_pos h₁] at hx
        by_cases h₂ : max (-(1/20)) (min (6/100) safeGrowth) < requiredReturn
        · linarith
        · rw [if_neg h₂] at hx
          exact absurd hx (by simp)
      · rw [if_neg h₁] at hx
        exact absurd hx (by simp)
  | nan =>
    have hres : calculateGordonGrowthModel .nan price requiredReturn
        safeGrowth = none := by
      unfold calculateGordonGrowthModel
      simp [JSNum.isFinite]
    refine ⟨fun _ => hres, ?_, ?_⟩
    · intro d hd htr hlt
      exact absurd hd (by simp)
    · intro x hx
      rw [hres] at hx
      exact absurd hx (by simp)
  | posInf =>
    have hres : calculateGordonGrowthModel .posInf price requiredReturn
        safeGrowth = none := by
      unfold calculateGordonGrowthModel
      simp [JSNum.isFinite]
    refine ⟨fun _ => hres, ?_, ?_⟩
    · intro d hd htr hlt
      exact absurd hd (by simp)
    · intro x hx
      rw [hres] at hx
      exact absurd hx (by simp)
  | negInf =>
    have hres : calculateGordonGrowthModel .negInf price requiredReturn
        safeGrowth = none := by
      unfold calculateGordonGrowthModel
      simp [JSNum.isFinite]
    refine ⟨fun _ => hres, ?_, ?_⟩
    · intro d hd htr hlt
      exact absurd hd (by simp)
    · intro x hx
      rw [hres] at hx
      exact absurd hx (by simp)

/-- C4 (witness): the spec example `gordonGrowth(4.12, 72.50, 0.09, 0.02)`
returns `4.12 / 0.07`. -/
theorem gordonGrowth_spec_witness :
    JSNum.num (412/100) = JSNum.num (412/100) ∧
    (JSNum.truthy (.num (725/10))) = true ∧
    max (-(1/20)) (min (6/100) ((2:ℚ)/100)) < 9/100 ∧
    calculateGordonGrowthModel (.num (412/100)) (.num (725/10)) (9/100)
      (2/100) = some ((412/100) / (9/100 - max (-(1/20)) (min (6/100) (2/100)))) :=
  ⟨rfl, by norm_num [JSNum.truthy], by norm_num,
    (gordonGrowth_spec (.num (412/100)) (.num (725/10)) (9/100) (2/100)
        (max (-(1/20)) (min (6/100) (2/100))) rfl).2.1 (412/100) rfl
      (by norm_num [JSNum.truthy]) (by norm_num)⟩

theorem calculateEMA_getD (data : List ℚ) (period : ℕ)
    (hnot : ¬ data.length < period) (k : ℕ) (hk : k < data.length)
    (d : Option ℚ) :
    (calculateEMA data period).getD k d =
      if k + 1 < period then none else some (emaSeq data period k) := by
  unfold calculateEMA
  rw [if_neg hnot, List.getD_eq_getElem?_getD,
    List.getElem?_eq_getElem (by simpa using hk), Option.getD_some,
    List.getElem_map, List.getElem_range]

theorem emaSeq_seed (data : List ℚ) (period : ℕ) (hp : 1 ≤ period) :
    emaSeq data period (period - 1) = (data.take period).sum / period := by
  cases hp' : period - 1 with
  | zero => simp [emaSeq]
  | succ i =>
    have hle : i + 1 + 1 ≤ period := by omega
    simp only [emaSeq]
    rw [if_pos hle]

/-- C10: `calculateEMA(prices, period)` returns an empty array when
`prices.length < period`; otherwise an array of length `prices.length` whose
entries below `period - 1` are `NaN`, whose entry at `period - 1` is the
simple average of the first `period` prices, and whose entry at each later
index `i` is `(prices[i] - ema[i-1]) * (2/(period+1)) + ema[i-1]`. -/
theorem calculateEMA_spec (data : List ℚ) (period : ℕ) (hp : 1 ≤ period) :
    (data.length < period → calculateEMA data period = []) ∧
    (period ≤ data.length →
      (calculateEMA data period).length = data.length ∧
      (∀ i, i + 1 < period → (calculateEMA data period).getD i (some 0) = none) ∧
      (calculateEMA data period).getD (period - 1) none =
        some ((data.take period).sum / period) ∧
      (∀ i, period ≤ i → i < data.length →
        ∃ prev, (calculateEMA data period).getD (i - 1) none = some prev ∧
          (calculateEMA data period).getD i none =
            some ((data.getD i 0 - prev) * (2 / (period + 1)) + prev))) := by
  constructor
  · intro h
    unfold calculateEMA
    rw [if_pos h]
  · intro h
    have hnot : ¬ data.length < period := not_lt.mpr h
    refine ⟨?_, ?_, ?_, ?_⟩
    · unfold calculateEMA
      rw [if_neg hnot, List.length_map, List.length_range]
    · intro i hi
      rw [calculateEMA_getD data period hnot i (by omega) (some 0), if_pos hi]
    · rw [calculateEMA_getD data period hnot (period - 1) (by omega) none,
        if_neg (by omega), emaSeq_seed data period hp]
    · intro i hpi hil
      obtain ⟨j, rfl⟩ : ∃ j, i = j + 1 := ⟨i - 1, by omega⟩
      refine ⟨emaSeq data period j, ?_, ?_⟩
      · rw [calculateEMA_getD data period hnot (j + 1 - 1) (by omega) none,
          if_neg (by omega)]
        simp
      · rw [calculateEMA_getD data period hnot (j + 1) hil none,
          if_neg (by omega)]
        have hgt : ¬ j + 1 + 1 ≤ period := by omega
        simp only [emaSeq]
        rw [if_neg hgt]

/-- C10 (witness): for the four-price series `[1, 2, 3, 4]` with period 2,
the EMA array has length 4, starts with `NaN`, seeds with the average `3/2`
at index 1, and applies the smoothing recurrence afterwards. -/
theorem calculateEMA_spec_witness :
    (([1, 2, 3, 4] : List ℚ).length < 2 → calculateEMA [1, 2, 3, 4] 2 = []) ∧
    (2 ≤ ([1, 2, 3, 4] : List ℚ).length →
      (calculateEMA [1, 2, 3, 4] 2).length = ([1, 2, 3, 4] : List ℚ).length ∧
      (∀ i, i + 1 < 2 → (calculateEMA [1, 2, 3, 4] 2).getD i (some 0) = none) ∧
      (calculateEMA [1, 2, 3, 4] 2).getD (2 - 1) none =
        some ((([1, 2, 3, 4] : List ℚ).take 2).sum / 2) ∧
      (∀ i, 2 ≤ i → i < ([1, 2, 3, 4] : List ℚ).length →
        ∃ prev, (calculateEMA [1, 2, 3, 4] 2).getD (i - 1) none = some prev ∧
          (calculateEMA [1, 2, 3, 4] 2).getD i none =
            some ((([1, 2, 3, 4] : List ℚ).getD i 0 - prev) * (2 / (2 + 1)) +
              prev))) :=
  calculateEMA_spec [1, 2, 3, 4] 2 (by decide)

theorem streakFrom_monotone (s : List (ℤ × ℚ))
    (hmono : s.Pairwise (fun a b => a.2 ≤ b.2))
    (hpos : ∀ p ∈ s, 0 ≤ p.2) :
    ∀ k, k < s.length → streakFrom s k = k := by
  intro k
  induction k with
  | zero => intro _; rfl
  | succ j ih =>
    intro hk
    have hj : j < s.length := by omega
    have hjget : s.getD j (0, 0) = s[j] := by
      rw [List.getD_eq_getElem?_getD, List.getElem?_eq_getElem hj,
        Option.getD_some]
    have hkget : s.getD (j + 1) (0, 0) = s[j + 1] := by
      rw [List.getD_eq_getElem?_getD, List.getElem?_eq_getElem hk,
        Option.getD_some]
    have hprev : 0 ≤ (s.getD j (0, 0)).2 := by
      rw [hjget]; exact hpos _ (List.getElem_mem hj)
    have hmle : (s.getD j (0, 0)).2 ≤ (s.getD (j + 1) (0, 0)).2 := by
      rw [hjget, hkget]
      exact (List.pairwise_iff_getElem.mp hmono) j (j + 1) hj hk (by omega)
    have hcond : (s.getD j (0, 0)).2 * (98/100) ≤ (s.getD (j + 1) (0, 0)).2 :=
      calc (s.getD j (0, 0)).2 * (98/100) ≤ (s.getD j (0, 0)).2 :=
            mul_le_of_le_one_right hprev (by norm_num)
        _ ≤ _ := hmle
    simp only [streakFrom]
    rw [if_pos hcond, ih hj]

/-- C2: for every annual dividend series — strictly increasing years,
non-negative yearly totals — whose totals are monotonically non-decreasing,
`calculateDividendStreak` returns `series.length - 1`; in particular the
series (2019,1.00),(2020,1.10),(2021,1.21),(2022,1.33),(2023,1.46) yields
streak 4. -/
theorem calculateDividendStreak_monotone :
    (∀ series : List (ℤ × ℚ),
      series.Pairwise (fun a b => a.1 < b.1) →
      series.Pairwise (fun a b => a.2 ≤ b.2) →
      (∀ p ∈ series, 0 ≤ p.2) →
      calculateDividendStreak series = series.length - 1) ∧
    calculateDividendStreak
      [(2019, 1), (2020, 11/10), (2021, 121/100), (2022, 133/100),
        (2023, 146/100)] = 4 := by
  have hgen : ∀ series : List (ℤ × ℚ),
      series.Pairwise (fun a b => a.1 < b.1) →
      series.Pairwise (fun a b => a.2 ≤ b.2) →
      (∀ p ∈ series, 0 ≤ p.2) →
      calculateDividendStreak series = series.length - 1 := by
    intro series h1 h2 h3
    unfold calculateDividendStreak
    rw [List.mergeSort_of_sorted (h1.imp fun h => decide_eq_true (le_of_lt h))]
    cases series with
    | nil => rfl
    | cons a t =>
      exact streakFrom_monotone (a :: t) h2 h3 ((a :: t).length - 1)
        (by simp)
  refine ⟨hgen, ?_⟩
  have h := hgen
    [(2019, 1), (2020, 11/10), (2021, 121/100), (2022, 133/100),
      (2023, 146/100)]
    (by norm_num [List.pairwise_cons])
    (by norm_num [List.pairwise_cons])
    (by norm_num)
  simpa using h

/-- C2 (witness): a concrete three-year non-decreasing series has streak
`3 - 1 = 2`. -/
theorem calculateDividendStreak_monotone_witness :
    calculateDividendStreak [((2000 : ℤ), (1 : ℚ)), (2001, 1), (2002, 2)] =
      ([((2000 : ℤ), (1 : ℚ)), (2001, 1), (2002, 2)]).length - 1 :=
  calculateDividendStreak_monotone.1 _
    (by norm_num [List.pairwise_cons])
    (by norm_num [List.pairwise_cons])
    (by norm_num)

theorem allElite_years_pos :
    ∀ stock ∈ DividendEliteDetector.ALL_ELITE, 0 < stock.yearsOfIncreases := by
  decide

/-- C1 (counterexample): for KO — a listed king with expected streak 61 —
and computed streak 12 we have `12 ≥ 10` and `12/61 < 0.5`, and the
validator does report the streak as valid with low confidence, yet
`getAdjustedStreak` still proposes a dampened streak of 25 ≠ 12 with a
major adjustment, contradicting "proposed only when C < 10". -/
theorem eliteStreak_claim_cex :
    (10 ≤ 12) ∧ ((12 : ℚ) / 61 < 1/2) ∧
    DividendEliteDetector.getExpectedStreak "KO" = some 61 ∧
    (DividendEliteDetector.validateStreak "KO" 12).isValid = true ∧
    (DividendEliteDetector.validateStreak "KO" 12).confidence = .low ∧
    (DividendEliteDetector.getAdjustedStreak "KO" 12).adjustedStreak = 25 ∧
    (DividendEliteDetector.getAdjustedStreak "KO" 12).adjustment = .major ∧
    (DividendEliteDetector.getAdjustedStreak "KO" 12).adjustedStreak ≠ 12 := by
  have hval : DividendEliteDetector.validateStreak "KO" 12 =
      ⟨true, some 61, .low,
        some ("Significant data quality issues detected. Expected " ++
          toString 61 ++ " years, calculated " ++ toString 12)⟩ := by
    simp only [DividendEliteDetector.validateStreak,
      show DividendEliteDetector.getExpectedStreak "KO" = some 61 from rfl]
    rw [if_neg (by norm_num), if_neg (by norm_num), if_neg (by norm_num),
      if_pos (by norm_num)]
  have hadj : DividendEliteDetector.getAdjustedStreak "KO" 12 =
      ⟨25, .major,
        some "Adjusted for known elite status with data quality issues"⟩ := by
    simp only [DividendEliteDetector.getAdjustedStreak, hval]
    rw [if_neg (by simp), if_neg (by simp)]
    simp only [Option.getD_some]
    rw [show max ((12:ℕ):ℚ) (min (((61:ℕ):ℚ) * (7/10)) 25) = 25 by
      push_cast; norm_num]
    rw [show jsRound 25 = 25 by norm_num [jsRound]]
    rfl
  refine ⟨by norm_num, by norm_num, rfl, by rw [hval], by rw [hval],
    by rw [hadj], by rw [hadj], by rw [hadj]; norm_num⟩

/-- C1 (amended): for every listed elite ticker with expected streak `E > 0`
and computed streak `C` with `C/E < 0.5`, the validator reports low
confidence with a warning (marking the streak valid exactly when `C ≥ 10`),
and `getAdjustedStreak` proposes the dampened streak
`round(max(C, min(E*0.7, 25)))` with a major adjustment — in both the
`C ≥ 10` and the `C < 10` case — and the orchestrator substitutes the
proposed value into the fresh analysis. -/
theorem eliteStreak_lowRatio_adjustment (ticker : String) (c : ℕ)
    (stock : DividendEliteStock)
    (hfind : DividendEliteDetector.isKnownElite ticker = some stock)
    (hlow : (c : ℚ) / (stock.yearsOfIncreases : ℚ) < 1/2) :
    ((DividendEliteDetector.validateStreak ticker c).isValid = decide (10 ≤ c) ∧
      (DividendEliteDetector.validateStreak ticker c).confidence = .low ∧
      (DividendEliteDetector.validateStreak ticker c).warning.isSome = true) ∧
    DividendEliteDetector.getAdjustedStreak ticker c =
      ⟨(jsRound (max (c : ℚ)
          (min ((stock.yearsOfIncreases : ℚ) * (7/10)) 25))).toNat, .major,
        some "Adjusted for known elite status with data quality issues"⟩ ∧
    (∀ (A : Type) (mkAnalysis : ℕ → A) (cacheWrite : A → Except String Unit),
      analyze A false false (.ok none) ticker c mkAnalysis cacheWrite =
        .ok (mkAnalysis ((jsRound (max (c : ℚ)
          (min ((stock.yearsOfIncreases : ℚ) * (7/10)) 25))).toNat))) := by
  have hmem := List.mem_of_find?_eq_some hfind
  have hpos : 0 < stock.yearsOfIncreases := allElite_years_pos stock hmem
  have hexp : DividendEliteDetector.getExpectedStreak ticker =
      some stock.yearsOfIncreases := by
    simp [DividendEliteDetector.getExpectedStreak, hfind]
  have hrat8 : ¬ ((8:ℚ)/10 ≤ (c : ℚ) / (stock.yearsOfIncreases : ℚ)) := by
    intro hcon; linarith
  have hrat5 : ¬ ((5:ℚ)/10 ≤ (c : ℚ) / (stock.yearsOfIncreases : ℚ)) := by
    intro hcon; linarith
  have hval : DividendEliteDetector.validateStreak ticker c =
      if 10 ≤ c then
        ⟨true, some stock.yearsOfIncreases, .low,
          some ("Significant data quality issues detected. Expected " ++
            toString stock.yearsOfIncreases ++ " years, calculated " ++
            toString c)⟩
      else
        ⟨false, some stock.yearsOfIncreases, .low,
          some ("Major data quality issues. Known elite with " ++
            toString stock.yearsOfIncreases ++ " years, but calculated only " ++
            toString c)⟩ := by
    simp only [DividendEliteDetector.validateStreak, hexp]
    rw [if_neg (by omega), if_neg hrat8, if_neg hrat5]
  have hcond1 : ¬ (stock.yearsOfIncreases = 0 ∨
      DividendEliteDetector.Confidence.low =
        DividendEliteDetector.Confidence.high) := by
    push_neg
    exact ⟨by omega, by simp⟩
  have hcond2 : DividendEliteDetector.Confidence.low ≠
      DividendEliteDetector.Confidence.medium := by simp
  have hadj : DividendEliteDetector.getAdjustedStreak ticker c =
      ⟨(jsRound (max (c : ℚ)
          (min ((stock.yearsOfIncreases : ℚ) * (7/10)) 25))).toNat, .major,
        some "Adjusted for known elite status with data quality issues"⟩ := by
    simp only [DividendEliteDetector.getAdjustedStreak, hval]
    by_cases h10 : 10 ≤ c
    · rw [if_pos h10]
      dsimp only [Option.getD]
      rw [if_neg hcond1, if_neg hcond2]
    · rw [if_neg h10]
      dsimp only [Option.getD]
      rw [if_neg hcond1, if_neg hcond2]
  refine ⟨?_, hadj, ?_⟩
  · rw [hval]
    by_cases h10 : 10 ≤ c <;> simp [h10]
  · intro A mkAnalysis cacheWrite
    simp [analyze, hadj]

/-- C1 (witness): KO with computed streak 8 — listed with expected streak
61 and `8/61 < 0.5` — validates as invalid with low confidence, and the
dampened streak `round(max(8, min(61*0.7, 25)))` is proposed and
substituted by the orchestrator. -/
theorem eliteStreak_lowRatio_adjustment_witness :
    ((DividendEliteDetector.validateStreak "KO" 8).isValid = decide (10 ≤ 8) ∧
      (DividendEliteDetector.validateStreak "KO" 8).confidence = .low ∧
      (DividendEliteDetector.validateStreak "KO" 8).warning.isSome = true) ∧
    DividendEliteDetector.getAdjustedStreak "KO" 8 =
      ⟨(jsRound (max ((8 : ℕ) : ℚ)
          (min (((⟨"KO", "Coca-Cola", 61, .king⟩ :
            DividendEliteStock).yearsOfIncreases : ℚ) * (7/10)) 25))).toNat,
        .major,
        some "Adjusted for known elite status with data quality issues"⟩ ∧
    (∀ (A : Type) (mkAnalysis : ℕ → A) (cacheWrite : A → Except String Unit),
      analyze A false false (.ok none) "KO" 8 mkAnalysis cacheWrite =
        .ok (mkAnalysis ((jsRound (max ((8 : ℕ) : ℚ)
          (min (((⟨"KO", "Coca-Cola", 61, .king⟩ :
            DividendEliteStock).yearsOfIncreases : ℚ) * (7/10)) 25))).toNat))) :=
  eliteStreak_lowRatio_adjustment "KO" 8 ⟨"KO", "Coca-Cola", 61, .king⟩ rfl
    (by norm_num)

/-- C8: `analyze` never fails because of the cache layer: it always
returns a result; a cache-read failure degrades to a miss and the fresh
analysis (with the substituted streak) is still produced; and the outcome of
the cache write never influences the returned value. -/
theorem analyze_cache_resilient (A : Type) (ticker : String) (rawStreak : ℕ)
    (mkAnalysis : ℕ → A) :
    (∀ (saveToDb forceFresh : Bool) (cacheRead : Except String (Option A))
        (cacheWrite : A → Except String Unit),
      (analyze A saveToDb forceFresh cacheRead ticker rawStreak mkAnalysis
        cacheWrite).isOk = true) ∧
    (∀ (saveToDb forceFresh : Bool) (msg : String)
        (cacheWrite : A → Except String Unit),
      analyze A saveToDb forceFresh (.error msg) ticker rawStreak mkAnalysis
        cacheWrite =
        .ok (mkAnalysis
          (DividendEliteDetector.getAdjustedStreak ticker
            rawStreak).adjustedStreak)) ∧
    (∀ (saveToDb forceFresh : Bool) (cacheRead : Except String (Option A))
        (cw₁ cw₂ : A → Except String Unit),
      analyze A saveToDb forceFresh cacheRead ticker rawStreak mkAnalysis cw₁ =
        analyze A saveToDb forceFresh cacheRead ticker rawStreak mkAnalysis
          cw₂) := by
  refine ⟨?_, ?_, ?_⟩
  · intro saveToDb forceFresh cacheRead cacheWrite
    unfold analyze
    cases saveToDb <;> cases forceFresh <;> cases cacheRead with
      | ok r => cases r <;> simp [Except.isOk, Except.toBool]
      | error e => simp [Except.isOk, Except.toBool]
  · intro saveToDb forceFresh msg cacheWrite
    unfold analyze
    cases saveToDb <;> cases forceFresh <;> simp
  · intro saveToDb forceFresh cacheRead cw₁ cw₂
    unfold analyze
    cases saveToDb <;> cases forceFresh <;> cases cacheRead with
      | ok r => cases r <;> simp
      | error e => simp

/-- C8 (witness): with a failing cache read and a failing cache write, a
fresh analysis for KO with raw streak 12 is still returned. -/
theorem analyze_cache_resilient_witness :
    (analyze ℕ true false (.error "store unavailable") "KO" 12 id
      (fun _ => .error "insert failed")).isOk = true ∧
    analyze ℕ true false (.error "store unavailable") "KO" 12 id
      (fun _ => .error "insert failed") =
      .ok (id (DividendEliteDetector.getAdjustedStreak "KO" 12).adjustedStreak) :=
  ⟨(analyze_cache_resilient ℕ "KO" 12 id).1 true false
      (.error "store unavailable") (fun _ => .error "insert failed"),
    (analyze_cache_resilient ℕ "KO" 12 id).2.1 true false "store unavailable"
      (fun _ => .error "insert failed")⟩

theorem failCalls_opens (E : Type) (threshold recovery : ℕ) (e : E) (now : ℕ) :
    ∀ (k : ℕ) (st : CircuitBreakerState), st.isOpen = false → 1 ≤ k →
      st.failures + k = threshold →
      (failCalls E threshold recovery e now k st).isOpen = true := by
  intro k
  induction k with
  | zero => intro st h1 h2 h3; omega
  | succ n ih =>
    intro st hopen hk hsum
    have hstep : (circuitBreakerCall E Unit threshold recovery st now
        (.error e)).2 =
        ⟨st.failures + 1, now, decide (threshold ≤ st.failures + 1)⟩ := by
      unfold circuitBreakerCall
      simp [hopen]
    cases n with
    | zero =>
      simp only [failCalls, hstep]
      simp
      omega
    | succ m =>
      simp only [failCalls, hstep]
      apply ih
      · simp
        omega
      · omega
      · simp
        omega

/-- C6: while the breaker is open and the recovery window has not passed
since the last failure, every call fails fast with the circuit-breaker error
and touches neither the operation nor the state; once more than
`recoveryTime` has elapsed, the next call behaves as from the reset
(closed, zero-failure) state; from a closed state a success resets the
failure count to 0 and a failure records `now` and opens the breaker exactly
when the count reaches the threshold; and `failureThreshold` consecutive
failures from a fresh state leave the breaker open. -/
theorem circuitBreaker_spec (E T : Type) (threshold recovery : ℕ)
    (hth : 1 ≤ threshold) :
    (∀ (st : CircuitBreakerState) (now : ℕ) (op : Except E T),
      st.isOpen = true → now - st.lastFailureTime ≤ recovery →
      circuitBreakerCall E T threshold recovery st now op =
        (.circuitOpen, st)) ∧
    (∀ (st : CircuitBreakerState) (now : ℕ) (op : Except E T),
      st.isOpen = true → recovery < now - st.lastFailureTime →
      circuitBreakerCall E T threshold recovery st now op =
        circuitBreakerCall E T threshold recovery
          { st with isOpen := false, failures := 0 } now op) ∧
    (∀ (st : CircuitBreakerState) (now : ℕ) (r : T),
      st.isOpen = false →
      circuitBreakerCall E T threshold recovery st now (.ok r) =
        (.ok r, { st with failures := 0 })) ∧
    (∀ (st : CircuitBreakerState) (now : ℕ) (e : E),
      st.isOpen = false →
      circuitBreakerCall E T threshold recovery st now (.error e) =
        (.opError e, ⟨st.failures + 1, now,
          decide (threshold ≤ st.failures + 1)⟩)) ∧
    (∀ (e : E) (t₀ now : ℕ),
      (failCalls E threshold recovery e now threshold
        ⟨0, t₀, false⟩).isOpen = true) := by
  refine ⟨?_, ?_, ?_, ?_, ?_⟩
  · intro st now op hopen helapsed
    have hnl : ¬ (recovery < now - st.lastFailureTime) := not_lt.mpr helapsed
    unfold circuitBreakerCall
    simp [hopen, hnl]
  · intro st now op hopen helapsed
    unfold circuitBreakerCall
    simp [hopen, helapsed]
  · intro st now r hopen
    unfold circuitBreakerCall
    simp [hopen]
  · intro st now e hopen
    unfold circuitBreakerCall
    simp [hopen]
  · intro e t₀ now
    exact failCalls_opens E threshold recovery e now threshold ⟨0, t₀, false⟩
      rfl hth (by simp)

/-- C6 (witness): the default breaker parameters (threshold 5, recovery
60000 ms) satisfy the circuit-breaker contract. -/
theorem circuitBreaker_spec_witness :
    (∀ (st : CircuitBreakerState) (now : ℕ) (op : Except String Unit),
      st.isOpen = true → now - st.lastFailureTime ≤ 60000 →
      circuitBreakerCall String Unit 5 60000 st now op =
        (.circuitOpen, st)) ∧
    (∀ (st : CircuitBreakerState) (now : ℕ) (op : Except String Unit),
      st.isOpen = true → 60000 < now - st.lastFailureTime →
      circuitBreakerCall String Unit 5 60000 st now op =
        circuitBreakerCall String Unit 5 60000
          { st with isOpen := false, failures := 0 } now op) ∧
    (∀ (st : CircuitBreakerState) (now : ℕ) (r : Unit),
      st.isOpen = false →
      circuitBreakerCall String Unit 5 60000 st now (.ok r) =
        (.ok r, { st with failures := 0 })) ∧
    (∀ (st : CircuitBreakerState) (now : ℕ) (e : String),
      st.isOpen = false →
      circuitBreakerCall String Unit 5 60000 st now (.error e) =
        (.opError e, ⟨st.failures + 1, now, decide (5 ≤ st.failures + 1)⟩)) ∧
    (∀ (e : String) (t₀ now : ℕ),
      (failCalls String 5 60000 e now 5 ⟨0, t₀, false⟩).isOpen = true) :=
  circuitBreaker_spec String Unit 5 60000 (by decide)

theorem lookup_congr_of_perm (A B : List (String × JsVal)) (h : A.Perm B) :
    (A.map Prod.fst).Nodup → ∀ k, A.lookup k = B.lookup k := by
  induction h with
  | nil => intro _ k; rfl
  | @cons x l₁ l₂ h ih =>
    intro hnd k
    have hnd' : (l₁.map Prod.fst).Nodup := by
      simp only [List.map_cons, List.nodup_cons] at hnd
      exact hnd.2
    cases hkx : k == x.1 <;> simp [List.lookup, hkx] <;> exact ih hnd' k
  | swap x y l =>
    intro hnd k
    have hxy : y.1 ≠ x.1 := by
      simp only [List.map_cons, List.nodup_cons] at hnd
      exact fun he => hnd.1 (by simp [he])
    cases hky : k == y.1 <;> cases hkx : k == x.1 <;>
      simp [List.lookup, hky, hkx]
    exact absurd (((beq_iff_eq).mp hky).symm.trans ((beq_iff_eq).mp hkx)) hxy
  | trans h₁ h₂ ih₁ ih₂ =>
    intro hnd k
    rw [ih₁ hnd k, ih₂ ((h₁.map Prod.fst).nodup_iff.mp hnd) k]

theorem mergeSort_key_eq_of_perm (l₁ l₂ : List String) (h : l₁.Perm l₂) :
    l₁.mergeSort (fun a b => decide (a ≤ b)) =
      l₂.mergeSort (fun a b => decide (a ≤ b)) := by
  have htrans : ∀ (a b c : String), (fun a b => decide (a ≤ b)) a b →
      (fun a b => decide (a ≤ b)) b c → (fun a b => decide (a ≤ b)) a c := by
    intro a b c hab hbc
    simp only [decide_eq_true_eq] at *
    exact le_trans hab hbc
  have htotal : ∀ (a b : String), ((fun a b => decide (a ≤ b)) a b ||
      (fun a b => decide (a ≤ b)) b a) = true := by
    intro a b
    simp only [Bool.or_eq_true, decide_eq_true_eq]
    exact le_total a b
  apply List.eq_of_perm_of_sorted (r := fun a b : String => a ≤ b)
    ((List.mergeSort_perm l₁ _).trans (h.trans (List.mergeSort_perm l₂ _).symm))
  · exact (List.sorted_mergeSort htrans htotal l₁).imp (by simp)
  · exact (List.sorted_mergeSort htrans htotal l₂).imp (by simp)

/-- C5: `createOptionsHash` gives the same key for any two option objects
containing exactly the same key/value pairs regardless of insertion order,
and (since the MD5 hex digest has 32 characters) the key always has exactly
16 characters. -/
theorem createOptionsHash_stable (digest : String → String)
    (A B : List (String × JsVal)) (hnd : (A.map Prod.fst).Nodup)
    (hperm : A.Perm B) :
    createOptionsHash digest A = createOptionsHash digest B ∧
    ((∀ s, (digest s).length = 32) →
      (createOptionsHash digest A).length = 16) := by
  have hkeys : (A.map Prod.fst).mergeSort (fun a b => decide (a ≤ b)) =
      (B.map Prod.fst).mergeSort (fun a b => decide (a ≤ b)) :=
    mergeSort_key_eq_of_perm _ _ (hperm.map Prod.fst)
  have hlookup := lookup_congr_of_perm A B hperm hnd
  have hser : stringifySorted A = stringifySorted B := by
    unfold stringifySorted
    dsimp only
    rw [hkeys]
    have hmap : ∀ k ∈ (B.map Prod.fst).mergeSort (fun a b => decide (a ≤ b)),
        ("\"" ++ jsonEscape k ++ "\":" ++
          JsVal.serialize ((A.lookup k).getD .null)) =
        ("\"" ++ jsonEscape k ++ "\":" ++
          JsVal.serialize ((B.lookup k).getD .null)) := by
      intro k _
      rw [hlookup k]
    rw [List.map_congr_left hmap]
  refine ⟨?_, ?_⟩
  · unfold createOptionsHash
    rw [hser]
  · intro hdig
    have h32 : (digest (stringifySorted A)).data.length = 32 := hdig _
    unfold createOptionsHash
    show ((digest (stringifySorted A)).data.take 16).length = 16
    rw [List.length_take, h32]
    norm_num

/-- C5 (witness): the orchestrator options `{years: 15, provider: "yahoo"}`
hash identically under both insertion orders, and the hash has 16
characters. -/
theorem createOptionsHash_stable_witness :
    createOptionsHash (fun _ : String => "0123456789abcdef0123456789abcdef")
        [("years", .num 15), ("provider", .str "yahoo")] =
      createOptionsHash (fun _ : String => "0123456789abcdef0123456789abcdef")
        [("provider", .str "yahoo"), ("years", .num 15)] ∧
    ((∀ s, ((fun _ : String => "0123456789abcdef0123456789abcdef") s).length = 32) →
      (createOptionsHash (fun _ : String => "0123456789abcdef0123456789abcdef")
        [("years", .num 15), ("provider", .str "yahoo")]).length = 16) :=
  createOptionsHash_stable (fun _ : String => "0123456789abcdef0123456789abcdef")
    [("years", .num 15), ("provider", .str "yahoo")]
    [("provider", .str "yahoo"), ("years", .num 15)]
    (by decide) (by decide)

theorem executeWithRetryGo_success (E T : Type)
    (isRetryable : E → List String → Bool) (cfg : RetryConfig)
    (outcomes : ℕ → Except E T) (rand : ℕ → ℚ) :
    ∀ (remaining attempt : ℕ) (td : ℚ) (le : Option E) (j : ℕ) (v : T),
      attempt + remaining = cfg.maxAttempts + 1 →
      attempt ≤ j → j ≤ cfg.maxAttempts →
      (∀ k, attempt ≤ k → k < j → ∃ e, outcomes k = .error e ∧
        isRetryable e cfg.retryableErrors = true) →
      outcomes j = .ok v →
      executeWithRetryGo E T isRetryable cfg outcomes rand remaining attempt
          td le =
        ⟨true, some v, none, j,
          td + ((List.range' attempt (j - attempt)).map
            (fun k => calculateDelay k cfg (rand k))).sum⟩ := by
  intro remaining
  induction remaining with
  | zero =>
    intro attempt td le j v hinv haj hjm hfail hok
    omega
  | succ n ih =>
    intro attempt td le j v hinv haj hjm hfail hok
    by_cases heq : attempt = j
    · subst heq
      simp only [executeWithRetryGo, hok]
      simp
    · have hlt : attempt < j := by omega
      obtain ⟨e, he, hre⟩ := hfail attempt (le_refl _) hlt
      simp only [executeWithRetryGo, he, hre]
      rw [if_neg (by simp), if_pos (by omega)]
      rw [ih (attempt + 1) _ _ j v (by omega) (by omega) hjm
        (fun k h1 h2 => hfail k (by omega) h2) hok]
      have hcount : j - attempt = (j - (attempt + 1)) + 1 := by omega
      rw [hcount, List.range'_succ]
      simp only [List.map_cons, List.sum_cons]
      congr 1
      ring

theorem executeWithRetryGo_fatal (E T : Type)
    (isRetryable : E → List String → Bool) (cfg : RetryConfig)
    (outcomes : ℕ → Except E T) (rand : ℕ → ℚ) :
    ∀ (remaining attempt : ℕ) (td : ℚ) (le : Option E) (j : ℕ) (e : E),
      attempt + remaining = cfg.maxAttempts + 1 →
      attempt ≤ j → j ≤ cfg.maxAttempts →
      (∀ k, attempt ≤ k → k < j → ∃ e', outcomes k = .error e' ∧
        isRetryable e' cfg.retryableErrors = true) →
      outcomes j = .error e → isRetryable e cfg.retryableErrors = false →
      executeWithRetryGo E T isRetryable cfg outcomes rand remaining attempt
          td le =
        ⟨false, none, some e, j,
          td + ((List.range' attempt (j - attempt)).map
            (fun k => calculateDelay k cfg (rand k))).sum⟩ := by
  intro remaining
  induction remaining with
  | zero =>
    intro attempt td le j e hinv haj hjm hfail herr hnr
    omega
  | succ n ih =>
    intro attempt td le j e hinv haj hjm hfail herr hnr
    by_cases heq : attempt = j
    · subst heq
      simp only [executeWithRetryGo, herr]
      rw [if_pos (by simp [hnr])]
      simp
    · have hlt : attempt < j := by omega
      obtain ⟨e', he, hre⟩ := hfail attempt (le_refl _) hlt
      simp only [executeWithRetryGo, he, hre]
      rw [if_neg (by simp), if_pos (by omega)]
      rw [ih (attempt + 1) _ _ j e (by omega) (by omega) hjm
        (fun k h1 h2 => hfail k (by omega) h2) herr hnr]
      have hcount : j - attempt = (j - (attempt + 1)) + 1 := by omega
      rw [hcount, List.range'_succ]
      simp only [List.map_cons, List.sum_cons]
      congr 1
      ring

theorem executeWithRetryGo_exhaust (E T : Type)
    (isRetryable : E → List String → Bool) (cfg : RetryConfig)
    (outcomes : ℕ → Except E T) (rand : ℕ → ℚ) (elast : E)
    (hlast : outcomes cfg.maxAttempts = .error elast) :
    ∀ (remaining attempt : ℕ) (td : ℚ) (le : Option E),
      attempt + remaining = cfg.maxAttempts + 1 →
      1 ≤ remaining →
      (∀ k, attempt ≤ k → k ≤ cfg.maxAttempts → ∃ e', outcomes k = .error e' ∧
        isRetryable e' cfg.retryableErrors = true) →
      executeWithRetryGo E T isRetryable cfg outcomes rand remaining attempt
          td le =
        ⟨false, none, some elast, cfg.maxAttempts,
          td + ((List.range' attempt (cfg.maxAttempts - attempt)).map
            (fun k => calculateDelay k cfg (rand k))).sum⟩ := by
  intro remaining
  induction remaining with
  | zero =>
    intro attempt td le hinv hrem hfail
    omega
  | succ n ih =>
    intro attempt td le hinv hrem hfail
    obtain ⟨e, he, hre⟩ := hfail attempt (le_refl _) (by omega)
    simp only [executeWithRetryGo, he, hre]
    rw [if_neg (by simp)]
    by_cases hn : 1 ≤ n
    · rw [if_pos hn]
      rw [ih (attempt + 1) _ _ (by omega) hn
        (fun k h1 h2 => hfail k (by omega) h2)]
      have hcount : cfg.maxAttempts - attempt =
          (cfg.maxAttempts - (attempt + 1)) + 1 := by omega
      rw [hcount, List.range'_succ]
      simp only [List.map_cons, List.sum_cons]
      congr 1
      ring
    · have hn0 : n = 0 := by omega
      subst hn0
      have hattempt : attempt = cfg.maxAttempts := by omega
      subst hattempt
      rw [hlast] at he
      injection he with hee
      subst hee
      rw [if_neg hn]
      simp only [executeWithRetryGo]
      simp

/-- C7: `withRetry` returns the operation's result as soon as an attempt
succeeds; a failure that is not retryable under the policy is rethrown
immediately with no further attempts; after `maxAttempts` retryable
failures the last error is rethrown; and the wait before retry `attempt+1`
is `min(maxDelay, base * mult^(attempt-1) * (1 + jitter * rand))`, the
delays accumulating in `totalDelayMs`. -/
theorem withRetry_spec (E T : Type) (isRetryable : E → List String → Bool)
    (cfg : RetryConfig) (outcomes : ℕ → Except E T) (rand : ℕ → ℚ) :
    (∀ (j : ℕ) (v : T), 1 ≤ j → j ≤ cfg.maxAttempts →
      (∀ k, 1 ≤ k → k < j → ∃ e, outcomes k = .error e ∧
        isRetryable e cfg.retryableErrors = true) →
      outcomes j = .ok v →
      executeWithRetry E T isRetryable cfg outcomes rand =
        ⟨true, some v, none, j,
          ((List.range' 1 (j - 1)).map
            (fun k => calculateDelay k cfg (rand k))).sum⟩ ∧
      withRetry E T isRetryable cfg outcomes rand = .ok v) ∧
    (∀ (j : ℕ) (e : E), 1 ≤ j → j ≤ cfg.maxAttempts →
      (∀ k, 1 ≤ k → k < j → ∃ e', outcomes k = .error e' ∧
        isRetryable e' cfg.retryableErrors = true) →
      outcomes j = .error e → isRetryable e cfg.retryableErrors = false →
      executeWithRetry E T isRetryable cfg outcomes rand =
        ⟨false, none, some e, j,
          ((List.range' 1 (j - 1)).map
            (fun k => calculateDelay k cfg (rand k))).sum⟩ ∧
      withRetry E T isRetryable cfg outcomes rand = .error (some e)) ∧
    (∀ (e : E), 1 ≤ cfg.maxAttempts →
      (∀ k, 1 ≤ k → k ≤ cfg.maxAttempts → ∃ e', outcomes k = .error e' ∧
        isRetryable e' cfg.retryableErrors = true) →
      outcomes cfg.maxAttempts = .error e →
      executeWithRetry E T isRetryable cfg outcomes rand =
        ⟨false, none, some e, cfg.maxAttempts,
          ((List.range' 1 (cfg.maxAttempts - 1)).map
            (fun k => calculateDelay k cfg (rand k))).sum⟩ ∧
      withRetry E T isRetryable cfg outcomes rand = .error (some e)) ∧
    (∀ (attempt : ℕ) (r : ℚ), calculateDelay attempt cfg r =
      min cfg.maxDelayMs (cfg.baseDelayMs *
        cfg.backoffMultiplier ^ (attempt - 1) * (1 + cfg.jitterFactor * r))) := by
  refine ⟨?_, ?_, ?_, ?_⟩
  · intro j v hj hjm hfail hok
    have hexec : executeWithRetry E T isRetryable cfg outcomes rand =
        ⟨true, some v, none, j,
          ((List.range' 1 (j - 1)).map
            (fun k => calculateDelay k cfg (rand k))).sum⟩ := by
      unfold executeWithRetry
      rw [executeWithRetryGo_success E T isRetryable cfg outcomes rand
        cfg.maxAttempts 1 0 none j v (by omega) hj hjm
        (fun k h1 h2 => hfail k h1 h2) hok]
      simp
    refine ⟨hexec, ?_⟩
    unfold withRetry
    rw [hexec]
  · intro j e hj hjm hfail herr hnr
    have hexec : executeWithRetry E T isRetryable cfg outcomes rand =
        ⟨false, none, some e, j,
          ((List.range' 1 (j - 1)).map
            (fun k => calculateDelay k cfg (rand k))).sum⟩ := by
      unfold executeWithRetry
      rw [executeWithRetryGo_fatal E T isRetryable cfg outcomes rand
        cfg.maxAttempts 1 0 none j e (by omega) hj hjm
        (fun k h1 h2 => hfail k h1 h2) herr hnr]
      simp
    refine ⟨hexec, ?_⟩
    unfold withRetry
    rw [hexec]
  · intro e hmax hfail hlast
    have hexec : executeWithRetry E T isRetryable cfg outcomes rand =
        ⟨false, none, some e, cfg.maxAttempts,
          ((List.range' 1 (cfg.maxAttempts - 1)).map
            (fun k => calculateDelay k cfg (rand k))).sum⟩ := by
      unfold executeWithRetry
      rw [executeWithRetryGo_exhaust E T isRetryable cfg outcomes rand e hlast
        cfg.maxAttempts 1 0 none (by omega) hmax
        (fun k h1 h2 => hfail k h1 h2)]
      simp
    refine ⟨hexec, ?_⟩
    unfold withRetry
    rw [hexec]
  · intro attempt r
    unfold calculateDelay
    rw [min_comm]
    congr 1
    ring

/-- C7 (witness): with three allowed attempts where attempt 1 fails with a
retryable error and attempt 2 succeeds with 42, `withRetry` returns 42
after one backoff delay. -/
theorem withRetry_spec_witness :
    executeWithRetry String ℕ (fun _ _ => true) ⟨3, 1, 30, 2, [], 1/10⟩
        (fun k => if k = 2 then .ok 42 else .error "boom") (fun _ => 0) =
      ⟨true, some 42, none, 2,
        ((List.range' 1 (2 - 1)).map
          (fun k => calculateDelay k ⟨3, 1, 30, 2, [], 1/10⟩
            ((fun _ => (0 : ℚ)) k))).sum⟩ ∧
    withRetry String ℕ (fun _ _ => true) ⟨3, 1, 30, 2, [], 1/10⟩
        (fun k => if k = 2 then .ok 42 else .error "boom") (fun _ => 0) =
      .ok 42 :=
  (withRetry_spec String ℕ (fun _ _ => true) ⟨3, 1, 30, 2, [], 1/10⟩
      (fun k => if k = 2 then .ok 42 else .error "boom") (fun _ => 0)).1 2 42
    (by decide) (by decide)
    (fun k h1 h2 => ⟨"boom", by
      have hk : k = 1 := by omega
      subst hk
      exact ⟨rfl, rfl⟩⟩)
    rfl
